import Mathlib

/-!
Verification of the frame decoding and acquisition pipeline of the
tcp-to-aedat4-converter repository.

The development shallowly embeds the three decoder variants found in the
repository and the TCP frame receiver:

* `Packed.unpack` — the 2-bit packed-pixel decoder (`FrameUnpacker::unpack`
  in the PackedDualValue variant of `frame_unpacker.cpp`).
* `Planar.unpack` — the lookup-table ("fast") planar-bit decoder
  (`FrameUnpacker::unpackChannelFast` / `unpack`).
* `PlanarRef.unpack` — the straightforward per-pixel planar-bit decoder
  (`FrameUnpacker::getBit` / `unpack` in `src/frame_unpacker.cpp`).
* `Tcp.receiveExact` / `Tcp.receiveFrame` — the stream receiver
  (`TcpReceiver::receiveExact` / `receiveFrame` in `tcp_receiver.cpp`).

Byte buffers are `List Nat`; a read of byte `i` is `buf.getD i 0 % 256`,
reflecting the C++ `uint8_t` element type.  Event stores are `List Event`;
`unpack` returns the pair (reported event count, resulting store), mirroring
the C++ return value and the in/out `dv::EventStore&` parameter.
-/

/-- A decoded event: C++ `dv::Event` fields used by the converter
(`timestamp` is `int64_t`, `x`/`y` are small non-negative `int16_t`,
`polarity` is `bool`). -/
structure Event where
  timestamp : Int
  x : Nat
  y : Nat
  polarity : Bool
deriving DecidableEq, Repr

/-- Read byte `i` of a buffer, as the C++ `uint8_t` access `frame_data[i]`
does.  Out-of-range indices yield 0; theorems about in-bounds behaviour
carry explicit length hypotheses. -/
def byteAt (buf : List Nat) (i : Nat) : Nat :=
  buf.getD i 0 % 256

namespace Packed

/-- Configuration of the PackedDualValue variant (`config.hpp`, first
variant): resolution plus the timestamp interval.  Fields not used by the
decoder are omitted. -/
structure Config where
  width : Nat
  height : Nat
  frame_interval_us : Int

/-- `Config::total_pixels()` — `width * height`. -/
def Config.total_pixels (c : Config) : Nat :=
  c.width * c.height

/-- `Config::frame_size()` — `(total_pixels() + 3) / 4` bytes (4 two-bit
pixels per byte, rounded up). -/
def Config.frame_size (c : Config) : Nat :=
  (c.total_pixels + 3) / 4

/-- `FrameUnpacker::unpack` of the PackedDualValue variant.  Validates the
buffer length, then scans bytes in ascending order; a zero byte is skipped;
otherwise the four 2-bit pixel values are extracted most-significant pair
first (`shift = 6, 4, 2, 0`), value 1 emits a positive event, value 2 a
negative one, values 0 and 3 nothing; pixel indices past `total_pixels`
(padding in the final byte) are dropped.  The C++
`byte_to_base_pixel_[byte_idx]` table is the arithmetic `byte_idx * 4`.
Returns (reported count, resulting event store). -/
def unpack (cfg : Config) (frame_data : List Nat) (frame_number : Nat)
    (events : List Event) : Nat × List Event :=
  if frame_data.length < cfg.frame_size then
    (0, events)
  else
    let timestamp : Int := (frame_number : Int) * cfg.frame_interval_us
    let evs := (List.range cfg.frame_size).flatMap (fun byte_idx =>
      let byte_val := byteAt frame_data byte_idx
      if byte_val = 0 then []
      else
        (List.range 4).flatMap (fun px_in_byte =>
          let pixel_val := (byte_val >>> (6 - px_in_byte * 2)) % 4
          if pixel_val = 0 ∨ pixel_val = 3 then []
          else
            let pixel_idx := byte_idx * 4 + px_in_byte
            if cfg.total_pixels ≤ pixel_idx then []
            else
              [⟨timestamp, pixel_idx % cfg.width, pixel_idx / cfg.width,
                pixel_val == 1⟩]))
    (evs.length, evs)

end Packed

namespace Planar

/-- Configuration of the PlanarBit variant (`config.hpp`, second variant):
resolution, bit/channel/scan order flags and the timestamp interval. -/
structure Config where
  width : Nat
  height : Nat
  msb_first : Bool
  positive_first : Bool
  row_major : Bool
  frame_interval_us : Int

/-- `Config::pixels_per_channel()` — `width * height`. -/
def Config.pixels_per_channel (c : Config) : Nat :=
  c.width * c.height

/-- `Config::bytes_per_channel()` — `pixels_per_channel() / 8` (integer
division, as in the source). -/
def Config.bytes_per_channel (c : Config) : Nat :=
  c.pixels_per_channel / 8

/-- `Config::frame_size()` — two channels of `bytes_per_channel()` bytes. -/
def Config.frame_size (c : Config) : Nat :=
  2 * c.bytes_per_channel

/-- The 256-entry lookup table built by `FrameUnpacker::initLookupTables`:
for a byte value, the list of bit offsets (in ascending offset order) whose
corresponding physical bit — `7 - offset` when MSB-first, `offset`
otherwise — is set.  `bit_counts_[b]` is the length of this list. -/
def bit_positions (msb_first : Bool) (byte_val : Nat) : List Nat :=
  (List.range 8).filter (fun bit =>
    byte_val.testBit (if msb_first then 7 - bit else bit))

/-- The positive-plane accessor chosen by `FrameUnpacker::unpack`: the
frame's first `bytes_per_channel` bytes when `positive_first`, the second
half otherwise. -/
def posChannel (cfg : Config) (frame_data : List Nat) : Nat → Nat :=
  fun i =>
    byteAt frame_data (if cfg.positive_first then i else cfg.bytes_per_channel + i)

/-- The negative-plane accessor chosen by `FrameUnpacker::unpack` (the
complementary half of the frame). -/
def negChannel (cfg : Config) (frame_data : List Nat) : Nat → Nat :=
  fun i =>
    byteAt frame_data (if cfg.positive_first then cfg.bytes_per_channel + i else i)

/-- `FrameUnpacker::unpackChannelFast`: scan the channel's bytes in
ascending order, skip zero bytes, and for each set bit (via
`bit_positions`) compute the coordinates from the per-byte base coordinate
plus the bit offset — advancing along x and wrapping into further rows in
row-major order, along y and wrapping into further columns in column-major
order.  The C++ `byte_to_base_x_` / `byte_to_base_y_` tables are the
`base_bit` div/mod arithmetic. -/
def unpackChannelFast (cfg : Config) (channel_data : Nat → Nat)
    (timestamp : Int) (polarity : Bool) : List Event :=
  (List.range cfg.bytes_per_channel).flatMap (fun byte_idx =>
    let byte_val := channel_data byte_idx
    if byte_val = 0 then []
    else
      let base_bit := byte_idx * 8
      (bit_positions cfg.msb_first byte_val).map (fun bit_offset =>
        if cfg.row_major then
          let total_x := base_bit % cfg.width + bit_offset
          ⟨timestamp, total_x % cfg.width,
            base_bit / cfg.width + total_x / cfg.width, polarity⟩
        else
          let total_y := base_bit % cfg.height + bit_offset
          ⟨timestamp, base_bit / cfg.height + total_y / cfg.height,
            total_y % cfg.height, polarity⟩))

/-- `FrameUnpacker::unpack` of the fast PlanarBit variant: validate the
length (undersized input returns 0 and leaves the store untouched), clear
the store, then decode the positive plane followed by the negative plane. -/
def unpack (cfg : Config) (frame_data : List Nat) (frame_number : Nat)
    (events : List Event) : Nat × List Event :=
  if frame_data.length < cfg.frame_size then
    (0, events)
  else
    let timestamp : Int := (frame_number : Int) * cfg.frame_interval_us
    let evs :=
      unpackChannelFast cfg (posChannel cfg frame_data) timestamp true
        ++ unpackChannelFast cfg (negChannel cfg frame_data) timestamp false
    (evs.length, evs)

end Planar

namespace PlanarRef

/-- `FrameUnpacker::getBitIndex` of the per-pixel variant
(`src/frame_unpacker.cpp`): row-major `y * width + x`, column-major
`x * height + y`. -/
def getBitIndex (cfg : Planar.Config) (x y : Nat) : Nat :=
  if cfg.row_major then y * cfg.width + x else x * cfg.height + y

/-- `FrameUnpacker::getBit`: test the bit of pixel (x, y) in a channel,
honouring `msb_first`. -/
def getBit (cfg : Planar.Config) (data : Nat → Nat) (x y : Nat) : Bool :=
  let bit_index := getBitIndex cfg x y
  (data (bit_index / 8)).testBit
    (if cfg.msb_first then 7 - bit_index % 8 else bit_index % 8)

/-- `FrameUnpacker::unpack` of the per-pixel variant: validate the length,
clear the store, then for every row `y` and column `x` in scan order test
the positive channel and then the negative channel, emitting an event for
each set bit. -/
def unpack (cfg : Planar.Config) (frame_data : List Nat) (frame_number : Nat)
    (events : List Event) : Nat × List Event :=
  if frame_data.length < cfg.frame_size then
    (0, events)
  else
    let timestamp : Int := (frame_number : Int) * cfg.frame_interval_us
    let pos_channel := Planar.posChannel cfg frame_data
    let neg_channel := Planar.negChannel cfg frame_data
    let evs := (List.range cfg.height).flatMap (fun y =>
      (List.range cfg.width).flatMap (fun x =>
        (if getBit cfg pos_channel x y then [⟨timestamp, x, y, true⟩] else [])
          ++ (if getBit cfg neg_channel x y then [⟨timestamp, x, y, false⟩] else [])))
    (evs.length, evs)

end PlanarRef

namespace Tcp

/-- The configuration fields `TcpReceiver::receiveFrame` consults:
`Config::frame_size()` (the nominal frame size), `has_header` and
`header_size`. -/
structure TcpConfig where
  frame_size : Nat
  has_header : Bool
  header_size : Nat

/-- Result of one run of the `receiveExact` loop against a script of `recv`
outcomes.  `ok` carries the bytes received, the unconsumed remainder of the
script and the consumed prefix; `aborted` models a `recv` returning 0
(peer closed) or a negative error code; `starved` models the loop blocking
forever because the script supplies no further `recv` outcome. -/
inductive RecvOutcome where
  | ok (bytes : List Nat) (rest consumed : List (Option (List Nat)))
  | aborted (consumed : List (Option (List Nat)))
  | starved (consumed : List (Option (List Nat)))
deriving DecidableEq, Repr

/-- `TcpReceiver::receiveExact`: loop until `size` bytes are gathered.  Each
script entry is one `recv` outcome: `none` is an error return, `some bs`
delivers the bytes `bs` (capped at the amount still requested, as `recv`
never returns more than asked); a delivery of no bytes is the peer closing
the connection.  Any `recv` returning zero or an error aborts the loop. -/
def receiveExact : Nat → List (Option (List Nat)) → RecvOutcome
  | 0, script => .ok [] script []
  | _ + 1, [] => .starved []
  | _ + 1, none :: _ => .aborted [none]
  | size + 1, some bs :: rest =>
    let received := bs.take (size + 1)
    if received.length = 0 then .aborted [some bs]
    else
      match receiveExact (size + 1 - received.length) rest with
      | .ok bytes rest2 consumed => .ok (received ++ bytes) rest2 (some bs :: consumed)
      | .aborted consumed => .aborted (some bs :: consumed)
      | .starved consumed => .starved (some bs :: consumed)

/-- The little-endian unsigned value of the header bytes — the effect of
`receiveExact(reinterpret_cast<uint8_t*>(&header_frame_size), header_size)`
on the zero-initialised `uint32_t` on a little-endian machine. -/
def headerValue (bytes : List Nat) : Nat :=
  bytes.foldr (fun b acc => b + 256 * acc) 0

/-- Observable result of one `TcpReceiver::receiveFrame` call:  the boolean
return value, the `connected_` flag after the call, the bytes placed in the
caller's buffer (`none` on failure), the byte count the payload read
requested (the local `frame_size`, i.e. the `buffer.resize` argument), and
the `recv` outcomes the call consumed. -/
structure FrameResult where
  success : Bool
  connected : Bool
  frame : Option (List Nat)
  requested : Nat
  consumed : List (Option (List Nat))
deriving DecidableEq, Repr

/-- `TcpReceiver::receiveFrame`: fail immediately when not connected; with
a header, read `header_size` bytes and adopt the header value as this
call's frame length only when it is positive and below the 100 MB sanity
ceiling, otherwise keep the configured nominal size; then read exactly that
many payload bytes.  A `recv` signal at any point aborts with
`connected_ = false`.  The result is `none` when the script leaves the
loop blocked forever. -/
def receiveFrame (cfg : TcpConfig) (connected : Bool)
    (script : List (Option (List Nat))) : Option FrameResult :=
  if connected = false then
    some ⟨false, connected, none, 0, []⟩
  else if cfg.has_header then
    match receiveExact cfg.header_size script with
    | .starved _ => none
    | .aborted consumed => some ⟨false, false, none, 0, consumed⟩
    | .ok header_bytes rest consumedH =>
      let header_frame_size := headerValue header_bytes
      let frame_size :=
        if 0 < header_frame_size ∧ header_frame_size < 100000000 then
          header_frame_size
        else cfg.frame_size
      match receiveExact frame_size rest with
      | .starved _ => none
      | .aborted consumedP => some ⟨false, false, none, frame_size, consumedH ++ consumedP⟩
      | .ok payload _ consumedP =>
        some ⟨true, true, some payload, frame_size, consumedH ++ consumedP⟩
  else
    match receiveExact cfg.frame_size script with
    | .starved _ => none
    | .aborted consumed => some ⟨false, false, none, cfg.frame_size, consumed⟩
    | .ok payload _ consumed =>
      some ⟨true, true, some payload, cfg.frame_size, consumed⟩

end Tcp

/-! ### General helper lemmas -/

theorem flatMap_range_eq_nil {α : Type} (n : Nat) (f : Nat → List α)
    (h : ∀ i, i < n → f i = []) : (List.range n).flatMap f = [] := by
  induction n with
  | zero => simp
  | succ n ih =>
    rw [List.range_succ, List.flatMap_append]
    simp [h n (Nat.lt_succ_self n), ih (fun i hi => h i (Nat.lt_succ_of_lt hi))]

theorem flatMap_range_eq_single {α : Type} (n i : Nat) (f : Nat → List α)
    (hi : i < n) (h : ∀ j, j < n → j ≠ i → f j = []) :
    (List.range n).flatMap f = f i := by
  induction n with
  | zero => omega
  | succ n ih =>
    rw [List.range_succ, List.flatMap_append]
    rcases Nat.lt_or_ge i n with hin | hin
    · rw [ih hin (fun j hj hne => h j (Nat.lt_succ_of_lt hj) hne)]
      simp [h n (Nat.lt_succ_self n) (by omega)]
    · obtain rfl : i = n := by omega
      rw [flatMap_range_eq_nil i f (fun j hj => h j (Nat.lt_succ_of_lt hj) (by omega))]
      simp

theorem byteAt_lt_256 (buf : List Nat) (i : Nat) : byteAt buf i < 256 :=
  Nat.mod_lt _ (by omega)

theorem byteAt_replicate_zero (n i : Nat) : byteAt (List.replicate n 0) i = 0 := by
  simp only [byteAt, List.getD, List.get?_eq_getElem?, List.getElem?_replicate]
  split <;> simp

theorem byteAt_set_eq (l : List Nat) (i b : Nat) (h : i < l.length) :
    byteAt (l.set i b) i = b % 256 := by
  simp [byteAt, List.getD, List.getElem?_set_self h]

theorem byteAt_set_ne (l : List Nat) (i b j : Nat) (h : j ≠ i) :
    byteAt (l.set i b) j = byteAt l j := by
  simp [byteAt, List.getD, List.getElem?_set_ne (Ne.symm h)]

/-! ### Undersized buffers: C2 and C10 -/

/-- C2: decoding a buffer strictly shorter than the layout's expected frame
size reports zero events and does not throw, for both the packed and the
planar decoder.  The result `(0, store)` is a constant independent of the
buffer's contents, which is the shallow-embedding rendering of "never reads
any byte at or beyond the buffer's actual length": the undersized branch
returns before any byte access. -/
theorem claim_C2 (cfgP : Packed.Config) (cfgB : Planar.Config)
    (bufP bufB : List Nat) (kP kB : Nat) (evP evB : List Event)
    (hP : bufP.length < cfgP.frame_size) (hB : bufB.length < cfgB.frame_size) :
    Packed.unpack cfgP bufP kP evP = (0, evP)
      ∧ Planar.unpack cfgB bufB kB evB = (0, evB) := by
  constructor <;> simp [Packed.unpack, Planar.unpack, hP, hB]

theorem claim_C2_witness :
    ([9].length < (Packed.Config.mk 4 4 1000).frame_size
        ∧ [9].length < (Planar.Config.mk 8 8 false true true 1000).frame_size)
      ∧ Packed.unpack ⟨4, 4, 1000⟩ [9] 5 [⟨1, 2, 3, true⟩] = (0, [⟨1, 2, 3, true⟩])
      ∧ Planar.unpack ⟨8, 8, false, true, true, 1000⟩ [9] 5 [⟨1, 2, 3, true⟩]
          = (0, [⟨1, 2, 3, true⟩]) :=
  ⟨⟨by decide, by decide⟩,
    claim_C2 ⟨4, 4, 1000⟩ ⟨8, 8, false, true, true, 1000⟩ [9] [9] 5 5
      [⟨1, 2, 3, true⟩] [⟨1, 2, 3, true⟩] (by decide) (by decide)⟩

/-- C10: on an undersized buffer every unpack variant returns before the
`events = dv::EventStore()` reset, so the caller's event store still holds
whatever it held before the call (the previous decode's events). -/
theorem claim_C10 (cfgP : Packed.Config) (cfgB : Planar.Config)
    (bufP bufB bufR : List Nat) (kP kB kR : Nat) (evP evB evR : List Event)
    (hP : bufP.length < cfgP.frame_size) (hB : bufB.length < cfgB.frame_size)
    (hR : bufR.length < cfgB.frame_size) :
    (Packed.unpack cfgP bufP kP evP).2 = evP
      ∧ (Planar.unpack cfgB bufB kB evB).2 = evB
      ∧ (PlanarRef.unpack cfgB bufR kR evR).2 = evR := by
  refine ⟨?_, ?_, ?_⟩ <;> simp [Packed.unpack, Planar.unpack, PlanarRef.unpack, hP, hB, hR]

theorem claim_C10_witness :
    ([9].length < (Packed.Config.mk 4 4 1000).frame_size
        ∧ [9].length < (Planar.Config.mk 8 8 false true true 1000).frame_size)
      ∧ (Packed.unpack ⟨4, 4, 1000⟩ [9] 5 [⟨7, 1, 1, false⟩]).2 = [⟨7, 1, 1, false⟩]
      ∧ (Planar.unpack ⟨8, 8, false, true, true, 1000⟩ [9] 5 [⟨7, 1, 1, false⟩]).2
          = [⟨7, 1, 1, false⟩]
      ∧ (PlanarRef.unpack ⟨8, 8, false, true, true, 1000⟩ [9] 5 [⟨7, 1, 1, false⟩]).2
          = [⟨7, 1, 1, false⟩] := by
  refine ⟨⟨by decide, by decide⟩, ?_⟩
  exact claim_C10 ⟨4, 4, 1000⟩ ⟨8, 8, false, true, true, 1000⟩ [9] [9] [9] 5 5 5
    [⟨7, 1, 1, false⟩] [⟨7, 1, 1, false⟩] [⟨7, 1, 1, false⟩]
    (by decide) (by decide) (by decide)

/-! ### All-zero frames: C9 -/

/-- C9: decoding an all-zero buffer of exactly the expected size yields a
batch with zero events, for any configuration, in both decoder variants
(every byte is zero, so every byte is skipped). -/
theorem claim_C9 (cfgP : Packed.Config) (cfgB : Planar.Config) (kP kB : Nat)
    (evP evB : List Event) :
    Packed.unpack cfgP (List.replicate cfgP.frame_size 0) kP evP = (0, [])
      ∧ Planar.unpack cfgB (List.replicate cfgB.frame_size 0) kB evB = (0, []) := by
  constructor
  · simp [Packed.unpack, byteAt_replicate_zero]
    simp [Function.comp_def]
  · simp [Planar.unpack, Planar.unpackChannelFast, Planar.posChannel,
      Planar.negChannel, byteAt_replicate_zero]
    simp [Function.comp_def]

/-! ### Membership lemmas for the decoders -/

theorem base_shift (w base off : Nat) (hw : 0 < w) :
    (base % w + off) % w = (base + off) % w
      ∧ base / w + (base % w + off) / w = (base + off) / w := by
  have h := Nat.div_add_mod base w
  have e1 : base % w + off + w * (base / w) = base + off := by omega
  refine ⟨?_, ?_⟩
  · conv_rhs => rw [← e1]
    rw [Nat.add_mul_mod_self_left]
  · conv_rhs => rw [← e1]
    rw [Nat.add_mul_div_left _ _ hw]
    omega

theorem bit_positions_lt (msb : Bool) (b o : Nat)
    (h : o ∈ Planar.bit_positions msb b) : o < 8 := by
  simp only [Planar.bit_positions, List.mem_filter, List.mem_range] at h
  exact h.1

/-- Any event of the packed decoder's output comes from a byte index and a
pixel slot whose 2-bit value is 1 or 2 and whose pixel index is in range. -/
theorem mem_packed_unpack (cfg : Packed.Config) (buf : List Nat) (k : Nat)
    (ev : List Event) (e : Event) (hlen : cfg.frame_size ≤ buf.length)
    (h : e ∈ (Packed.unpack cfg buf k ev).2) :
    ∃ b px, b < cfg.frame_size ∧ px < 4 ∧ b * 4 + px < cfg.total_pixels ∧
      ((byteAt buf b >>> (6 - px * 2)) % 4 = 1 ∨ (byteAt buf b >>> (6 - px * 2)) % 4 = 2) ∧
      e = ⟨(k : Int) * cfg.frame_interval_us, (b * 4 + px) % cfg.width,
            (b * 4 + px) / cfg.width, (byteAt buf b >>> (6 - px * 2)) % 4 == 1⟩ := by
  simp only [Packed.unpack] at h
  rw [if_neg (Nat.not_lt.mpr hlen)] at h
  simp only [List.mem_flatMap, List.mem_range] at h
  obtain ⟨b, hb, he⟩ := h
  split at he
  · simp at he
  · simp only [List.mem_flatMap, List.mem_range] at he
    obtain ⟨px, hpx, he2⟩ := he
    split at he2
    · simp at he2
    · split at he2
      · simp at he2
      · simp only [List.mem_singleton] at he2
        refine ⟨b, px, hb, hpx, by omega, by omega, he2⟩

/-- Any event of `unpackChannelFast` comes from a byte index and a set-bit
offset, with the coordinates computed from the base arithmetic. -/
theorem mem_unpackChannelFast (cfg : Planar.Config) (ch : Nat → Nat) (ts : Int)
    (pol : Bool) (e : Event) (h : e ∈ Planar.unpackChannelFast cfg ch ts pol) :
    ∃ b o, b < cfg.bytes_per_channel ∧ o ∈ Planar.bit_positions cfg.msb_first (ch b) ∧
      e = (if cfg.row_major then
            (⟨ts, (b * 8 % cfg.width + o) % cfg.width,
              b * 8 / cfg.width + (b * 8 % cfg.width + o) / cfg.width, pol⟩ : Event)
          else
            ⟨ts, b * 8 / cfg.height + (b * 8 % cfg.height + o) / cfg.height,
              (b * 8 % cfg.height + o) % cfg.height, pol⟩) := by
  simp only [Planar.unpackChannelFast, List.mem_flatMap, List.mem_range] at h
  obtain ⟨b, hb, he⟩ := h
  split at he
  · simp at he
  · simp only [List.mem_map] at he
    obtain ⟨o, ho, rfl⟩ := he
    exact ⟨b, o, hb, ho, rfl⟩

/-! ### Shared timestamp: C6 -/

/-- C6: on a buffer of at least the expected size, every event produced by
the decode carries the timestamp `frameNumber * frameIntervalMicros`, for
both the packed and the planar decoder. -/
theorem claim_C6 (cfgP : Packed.Config) (cfgB : Planar.Config)
    (bufP bufB : List Nat) (kP kB : Nat) (evP evB : List Event) (e e' : Event)
    (hlP : cfgP.frame_size ≤ bufP.length) (hlB : cfgB.frame_size ≤ bufB.length)
    (heP : e ∈ (Packed.unpack cfgP bufP kP evP).2)
    (heB : e' ∈ (Planar.unpack cfgB bufB kB evB).2) :
    e.timestamp = (kP : Int) * cfgP.frame_interval_us
      ∧ e'.timestamp = (kB : Int) * cfgB.frame_interval_us := by
  constructor
  · obtain ⟨b, px, _, _, _, _, rfl⟩ := mem_packed_unpack cfgP bufP kP evP e hlP heP
    rfl
  · simp only [Planar.unpack] at heB
    rw [if_neg (Nat.not_lt.mpr hlB)] at heB
    simp only [List.mem_append] at heB
    rcases heB with hm | hm <;>
      obtain ⟨b, o, _, _, rfl⟩ := mem_unpackChannelFast _ _ _ _ _ hm <;>
      split <;> rfl

theorem claim_C6_witness :
    ((Packed.Config.mk 4 4 1000).frame_size ≤ (List.replicate 4 64).length
        ∧ (Planar.Config.mk 8 8 false true true 2000).frame_size
            ≤ (List.replicate 16 1).length
        ∧ (⟨3000, 0, 0, true⟩ : Event)
            ∈ (Packed.unpack ⟨4, 4, 1000⟩ (List.replicate 4 64) 3 []).2
        ∧ (⟨6000, 0, 0, true⟩ : Event)
            ∈ (Planar.unpack ⟨8, 8, false, true, true, 2000⟩ (List.replicate 16 1) 3 []).2)
      ∧ (⟨3000, 0, 0, true⟩ : Event).timestamp = (3 : Int) * 1000
      ∧ (⟨6000, 0, 0, true⟩ : Event).timestamp = (3 : Int) * 2000 :=
  ⟨⟨by decide, by decide, by decide, by decide⟩,
    claim_C6 ⟨4, 4, 1000⟩ ⟨8, 8, false, true, true, 2000⟩
      (List.replicate 4 64) (List.replicate 16 1) 3 3 [] []
      ⟨3000, 0, 0, true⟩ ⟨6000, 0, 0, true⟩
      (by decide) (by decide) (by decide) (by decide)⟩

/-! ### Coordinate bounds: C8 -/

/-- C8: with a positive resolution and a buffer of at least the expected
size, every emitted event satisfies `x < width` and `y < height`, in both
the packed decoder (whose explicit guard discards padding pixel indices at
or beyond `total_pixels`) and the fast planar decoder (whose
`bytes_per_channel = width*height/8` bytes never cover a bit index at or
beyond `width*height`, so no padding pixel exists to discard). -/
theorem claim_C8 (cfgP : Packed.Config) (cfgB : Planar.Config)
    (bufP bufB : List Nat) (kP kB : Nat) (evP evB : List Event) (e e' : Event)
    (hwP : 0 < cfgP.width) (hhP : 0 < cfgP.height)
    (hwB : 0 < cfgB.width) (hhB : 0 < cfgB.height)
    (hlP : cfgP.frame_size ≤ bufP.length) (hlB : cfgB.frame_size ≤ bufB.length)
    (heP : e ∈ (Packed.unpack cfgP bufP kP evP).2)
    (heB : e' ∈ (Planar.unpack cfgB bufB kB evB).2) :
    (e.x < cfgP.width ∧ e.y < cfgP.height)
      ∧ (e'.x < cfgB.width ∧ e'.y < cfgB.height) := by
  constructor
  · obtain ⟨b, px, _, _, hp, _, rfl⟩ := mem_packed_unpack cfgP bufP kP evP e hlP heP
    constructor
    · exact Nat.mod_lt _ hwP
    · exact Nat.div_lt_of_lt_mul hp
  · have hbound : ∀ (b o : Nat), b < cfgB.bytes_per_channel → o < 8 →
        b * 8 + o < cfgB.width * cfgB.height := by
      intro b o hb ho
      have h8 : cfgB.bytes_per_channel * 8 ≤ cfgB.width * cfgB.height := by
        have := Nat.div_mul_le_self (cfgB.width * cfgB.height) 8
        simpa [Planar.Config.bytes_per_channel, Planar.Config.pixels_per_channel]
          using this
      calc b * 8 + o < (b + 1) * 8 := by omega
        _ ≤ cfgB.bytes_per_channel * 8 := Nat.mul_le_mul_right 8 (by omega)
        _ ≤ cfgB.width * cfgB.height := h8
    simp only [Planar.unpack] at heB
    rw [if_neg (Nat.not_lt.mpr hlB)] at heB
    simp only [List.mem_append] at heB
    rcases heB with hm | hm <;>
      obtain ⟨b, o, hb, ho, rfl⟩ := mem_unpackChannelFast _ _ _ _ _ hm <;>
      have ho8 := bit_positions_lt _ _ _ ho <;>
      have hin := hbound b o hb ho8 <;>
      split
    case _ hrm =>
      refine ⟨Nat.mod_lt _ hwB, ?_⟩
      show b * 8 / cfgB.width + (b * 8 % cfgB.width + o) / cfgB.width < cfgB.height
      rw [(base_shift cfgB.width (b * 8) o hwB).2]
      exact Nat.div_lt_of_lt_mul (by omega)
    case _ hrm =>
      refine ⟨?_, Nat.mod_lt _ hhB⟩
      show b * 8 / cfgB.height + (b * 8 % cfgB.height + o) / cfgB.height < cfgB.width
      rw [(base_shift cfgB.height (b * 8) o hhB).2]
      refine Nat.div_lt_of_lt_mul ?_
      calc b * 8 + o < cfgB.width * cfgB.height := hin
        _ = cfgB.height * cfgB.width := Nat.mul_comm _ _
    case _ hrm =>
      refine ⟨Nat.mod_lt _ hwB, ?_⟩
      show b * 8 / cfgB.width + (b * 8 % cfgB.width + o) / cfgB.width < cfgB.height
      rw [(base_shift cfgB.width (b * 8) o hwB).2]
      exact Nat.div_lt_of_lt_mul (by omega)
    case _ hrm =>
      refine ⟨?_, Nat.mod_lt _ hhB⟩
      show b * 8 / cfgB.height + (b * 8 % cfgB.height + o) / cfgB.height < cfgB.width
      rw [(base_shift cfgB.height (b * 8) o hhB).2]
      refine Nat.div_lt_of_lt_mul ?_
      calc b * 8 + o < cfgB.width * cfgB.height := hin
        _ = cfgB.height * cfgB.width := Nat.mul_comm _ _

theorem claim_C8_witness :
    (0 < 4 ∧ 0 < 8
        ∧ (Packed.Config.mk 4 4 1000).frame_size ≤ (List.replicate 4 64).length
        ∧ (Planar.Config.mk 8 8 false true true 2000).frame_size
            ≤ (List.replicate 16 1).length
        ∧ (⟨3000, 0, 0, true⟩ : Event)
            ∈ (Packed.unpack ⟨4, 4, 1000⟩ (List.replicate 4 64) 3 []).2
        ∧ (⟨6000, 0, 0, true⟩ : Event)
            ∈ (Planar.unpack ⟨8, 8, false, true, true, 2000⟩ (List.replicate 16 1) 3 []).2)
      ∧ ((0 < 4 ∧ 0 < 4) ∧ (0 < 8 ∧ 0 < 8)) :=
  ⟨⟨by decide, by decide, by decide, by decide, by decide, by decide⟩,
    claim_C8 ⟨4, 4, 1000⟩ ⟨8, 8, false, true, true, 2000⟩
      (List.replicate 4 64) (List.replicate 16 1) 3 3 [] []
      ⟨3000, 0, 0, true⟩ ⟨6000, 0, 0, true⟩
      (by decide) (by decide) (by decide) (by decide) (by decide) (by decide)
      (by decide) (by decide)⟩

/-! ### Bit-order sensitivity: C7 -/

/-- C7: for an 8×8 PlanarBit frame (row-major, positive plane first) whose
only set bit is bit 0 of byte 0 of the positive plane, the decode emits
exactly one event — at (0,0) with LSB-first bit order and at (7,0) with
MSB-first bit order — in both the fast and the per-pixel decoder. -/
theorem claim_C7 :
    Planar.unpack ⟨8, 8, false, true, true, 2000⟩ (1 :: List.replicate 15 0) 0 []
        = (1, [⟨0, 0, 0, true⟩])
      ∧ Planar.unpack ⟨8, 8, true, true, true, 2000⟩ (1 :: List.replicate 15 0) 0 []
        = (1, [⟨0, 7, 0, true⟩])
      ∧ PlanarRef.unpack ⟨8, 8, false, true, true, 2000⟩ (1 :: List.replicate 15 0) 0 []
        = (1, [⟨0, 0, 0, true⟩])
      ∧ PlanarRef.unpack ⟨8, 8, true, true, true, 2000⟩ (1 :: List.replicate 15 0) 0 []
        = (1, [⟨0, 7, 0, true⟩]) := by
  refine ⟨?_, ?_, ?_, ?_⟩ <;> decide

/-! ### PackedDualValue pixel semantics: C3 -/

theorem packed_pixel_extract : ∀ v, v < 4 → ∀ j, j < 4 → ∀ j', j' < 4 →
    ((v <<< (6 - j * 2)) >>> (6 - j' * 2)) % 4 = if j' = j then v else 0 := by decide

theorem packed_shl_lt : ∀ v, v < 4 → ∀ j, j < 4 → v <<< (6 - j * 2) < 256 := by decide

theorem packed_shl_ne_zero : ∀ v, v < 4 → v ≠ 0 → ∀ j, j < 4 →
    v <<< (6 - j * 2) ≠ 0 := by decide

/-- A frame that is all zero except for a single 2-bit pixel value `v`
written at slot `j` of byte `i` decodes to exactly one positive event when
`v = 1`, one negative event when `v = 2`, and no event when `v = 0` or
`v = 3`, at pixel index `i*4 + j`. -/
theorem packed_single_byte (cfg : Packed.Config) (k : Nat) (ev : List Event)
    (i j v : Nat) (hv : v < 4) (hj : j < 4) (hi : i < cfg.frame_size)
    (hp : i * 4 + j < cfg.total_pixels) :
    Packed.unpack cfg ((List.replicate cfg.frame_size 0).set i (v <<< (6 - j * 2))) k ev
      = if v = 1 then
          (1, [⟨(k : Int) * cfg.frame_interval_us, (i * 4 + j) % cfg.width,
                (i * 4 + j) / cfg.width, true⟩])
        else if v = 2 then
          (1, [⟨(k : Int) * cfg.frame_interval_us, (i * 4 + j) % cfg.width,
                (i * 4 + j) / cfg.width, false⟩])
        else (0, []) := by
  have hbyte_ne : ∀ i', i' ≠ i →
      byteAt ((List.replicate cfg.frame_size 0).set i (v <<< (6 - j * 2))) i' = 0 := by
    intro i' hne
    rw [byteAt_set_ne _ _ _ _ hne, byteAt_replicate_zero]
  have hbyte_eq : byteAt ((List.replicate cfg.frame_size 0).set i (v <<< (6 - j * 2))) i
      = v <<< (6 - j * 2) := by
    rw [byteAt_set_eq _ _ _ (by simpa using hi)]
    exact Nat.mod_eq_of_lt (packed_shl_lt v hv j hj)
  have hfl := fun (f : Nat → List Event)
      (hf : ∀ i', i' < cfg.frame_size → i' ≠ i → f i' = []) =>
    flatMap_range_eq_single cfg.frame_size i f hi hf
  simp only [Packed.unpack]
  rw [if_neg (by simp)]
  rw [hfl _ ?hside]
  case hside =>
    intro i' hi' hne
    simp [hbyte_ne i' hne]
  rw [hbyte_eq]
  have hfl4 := fun (g : Nat → List Event)
      (hg : ∀ j', j' < 4 → j' ≠ j → g j' = []) =>
    flatMap_range_eq_single 4 j g hj hg
  by_cases hv0 : v = 0
  · subst hv0
    simp [Nat.zero_shiftLeft]
  · rw [if_neg (packed_shl_ne_zero v hv hv0 j hj)]
    rw [hfl4 _ ?hside4]
    case hside4 =>
      intro j' hj' hne
      rw [packed_pixel_extract v hv j hj j' hj']
      simp [hne]
    rw [packed_pixel_extract v hv j hj j hj]
    rw [if_pos rfl]
    interval_cases v
    · omega
    · rw [if_neg (by omega)]
      rw [if_neg (Nat.not_le.mpr hp)]
      simp
    · rw [if_neg (by omega)]
      rw [if_neg (Nat.not_le.mpr hp)]
      simp
    · rw [if_pos (by omega)]
      simp

/-- C3: for the PackedDualValue layout, a frame whose only non-zero byte is
byte 0 with value `0b01000000` yields exactly one event at (0,0) with
polarity true, value `0b10000000` yields exactly one event at (0,0) with
polarity false; and in general a single 2-bit pixel value `v` at slot `j`
(most-significant pair first) of byte `i` yields a positive event when
`v = 1`, a negative event when `v = 2`, and nothing when `v = 0` or
`v = 3`. -/
theorem claim_C3 (cfg : Packed.Config) (k : Nat) (ev : List Event)
    (hpix : 0 < cfg.total_pixels) :
    Packed.unpack cfg ((List.replicate cfg.frame_size 0).set 0 64) k ev
        = (1, [⟨(k : Int) * cfg.frame_interval_us, 0, 0, true⟩])
      ∧ Packed.unpack cfg ((List.replicate cfg.frame_size 0).set 0 128) k ev
        = (1, [⟨(k : Int) * cfg.frame_interval_us, 0, 0, false⟩])
      ∧ ∀ i j v, v < 4 → j < 4 → i < cfg.frame_size → i * 4 + j < cfg.total_pixels →
          Packed.unpack cfg
              ((List.replicate cfg.frame_size 0).set i (v <<< (6 - j * 2))) k ev
            = if v = 1 then
                (1, [⟨(k : Int) * cfg.frame_interval_us, (i * 4 + j) % cfg.width,
                      (i * 4 + j) / cfg.width, true⟩])
              else if v = 2 then
                (1, [⟨(k : Int) * cfg.frame_interval_us, (i * 4 + j) % cfg.width,
                      (i * 4 + j) / cfg.width, false⟩])
              else (0, []) := by
  have hfs : 0 < cfg.frame_size := by
    have h4 : 4 ≤ cfg.total_pixels + 3 := by omega
    have h44 : 4 / 4 ≤ (cfg.total_pixels + 3) / 4 := Nat.div_le_div_right h4
    simpa [Packed.Config.frame_size] using h44
  refine ⟨?_, ?_, ?_⟩
  · have h := packed_single_byte cfg k ev 0 0 1 (by omega) (by omega) hfs (by omega)
    simpa using h
  · have h := packed_single_byte cfg k ev 0 0 2 (by omega) (by omega) hfs (by omega)
    simpa using h
  · intro i j v hv hj hi hp
    exact packed_single_byte cfg k ev i j v hv hj hi hp

theorem claim_C3_witness :
    0 < (Packed.Config.mk 4 4 1000).total_pixels
      ∧ Packed.unpack ⟨4, 4, 1000⟩ ((List.replicate 4 0).set 0 64) 3 []
          = (1, [⟨3000, 0, 0, true⟩]) :=
  ⟨by decide, (claim_C3 ⟨4, 4, 1000⟩ 3 [] (by decide)).1⟩

/-! ### TCP receiver: C4 and C5 -/

theorem receiveExact_ok_length :
    ∀ (script : List (Option (List Nat))) (size : Nat) (bytes : List Nat)
      (rest consumed : List (Option (List Nat))),
      Tcp.receiveExact size script = .ok bytes rest consumed →
      bytes.length = size := by
  intro script
  induction script with
  | nil =>
    intro size bytes rest consumed h
    cases size with
    | zero =>
      simp [Tcp.receiveExact] at h
      simp [← h.1]
    | succ n => simp [Tcp.receiveExact] at h
  | cons r rest_s ih =>
    intro size bytes rest consumed h
    cases size with
    | zero =>
      simp [Tcp.receiveExact] at h
      simp [← h.1]
    | succ n =>
      cases r with
      | none => simp [Tcp.receiveExact] at h
      | some bs =>
        simp only [Tcp.receiveExact] at h
        split at h
        · simp at h
        · split at h
          case _ bytes2 rest2 consumed2 heq =>
            have hlen2 := ih _ _ _ _ heq
            have htake : (bs.take (n + 1)).length ≤ n + 1 := by
              simp [List.length_take]
            simp only [Tcp.RecvOutcome.ok.injEq] at h
            rw [← h.1, List.length_append, hlen2]
            omega
          case _ => simp at h
          case _ => simp at h

theorem receiveExact_ok_clean :
    ∀ (script : List (Option (List Nat))) (size : Nat) (bytes : List Nat)
      (rest consumed : List (Option (List Nat))),
      Tcp.receiveExact size script = .ok bytes rest consumed →
      ∀ c ∈ consumed, c ≠ none ∧ c ≠ some [] := by
  intro script
  induction script with
  | nil =>
    intro size bytes rest consumed h
    cases size with
    | zero =>
      simp [Tcp.receiveExact] at h
      simp [h.2.2]
    | succ n => simp [Tcp.receiveExact] at h
  | cons r rest_s ih =>
    intro size bytes rest consumed h
    cases size with
    | zero =>
      simp [Tcp.receiveExact] at h
      simp [h.2.2]
    | succ n =>
      cases r with
      | none => simp [Tcp.receiveExact] at h
      | some bs =>
        simp only [Tcp.receiveExact] at h
        split at h
        case _ hz =>
          simp at h
        case _ hz =>
          split at h
          case _ bytes2 rest2 consumed2 heq =>
            simp only [Tcp.RecvOutcome.ok.injEq] at h
            rw [← h.2.2]
            intro c hc
            rcases List.mem_cons.mp hc with rfl | hc2
            · refine ⟨by simp, ?_⟩
              intro hbse
              apply hz
              simp only [Option.some.injEq] at hbse
              simp [hbse]
            · exact ih _ _ _ _ heq c hc2
          case _ => simp at h
          case _ => simp at h

/-- C4: with the length header enabled, once the header bytes are read
successfully the payload read of the same call requests exactly the
little-endian header value when that value is positive and below the 100 MB
sanity ceiling, and the configured nominal frame size otherwise; a
successful call's payload has exactly that many bytes.  The nominal size is
taken from the immutable configuration, so the substitution is local to the
call. -/
theorem claim_C4 (cfg : Tcp.TcpConfig)
    (script rest consumedH : List (Option (List Nat)))
    (header_bytes : List Nat) (fr : Tcp.FrameResult)
    (hh : cfg.has_header = true)
    (hhdr : Tcp.receiveExact cfg.header_size script
        = .ok header_bytes rest consumedH)
    (hrun : Tcp.receiveFrame cfg true script = some fr) :
    fr.requested = (if Tcp.headerValue header_bytes = 0
          ∨ 100000000 ≤ Tcp.headerValue header_bytes
        then cfg.frame_size else Tcp.headerValue header_bytes)
      ∧ ∀ payload, fr.frame = some payload → payload.length = fr.requested := by
  have hcond : (if 0 < Tcp.headerValue header_bytes
        ∧ Tcp.headerValue header_bytes < 100000000
      then Tcp.headerValue header_bytes else cfg.frame_size)
      = (if Tcp.headerValue header_bytes = 0
          ∨ 100000000 ≤ Tcp.headerValue header_bytes
        then cfg.frame_size else Tcp.headerValue header_bytes) := by
    split <;> split <;> omega
  simp only [Tcp.receiveFrame, hh, if_true] at hrun
  rw [if_neg (by simp)] at hrun
  rw [hhdr] at hrun
  simp only [] at hrun
  split at hrun
  · simp at hrun
  case _ consumedP heq =>
    have hfr := Option.some.inj hrun
    subst hfr
    refine ⟨hcond, ?_⟩
    intro payload hp
    simp at hp
  case _ payload0 rest2 consumedP heq =>
    have hfr := Option.some.inj hrun
    subst hfr
    refine ⟨hcond, ?_⟩
    intro payload hp
    simp only [Option.some.injEq] at hp
    subst hp
    exact receiveExact_ok_length _ _ _ _ _ heq

/-- C5: if any `recv` consumed by a `receiveFrame` call returns an
end-of-stream (zero bytes) or error signal, the call fails, sets
`connected_` to false, and produces no frame. -/
theorem claim_C5 (cfg : Tcp.TcpConfig) (script : List (Option (List Nat)))
    (fr : Tcp.FrameResult)
    (hrun : Tcp.receiveFrame cfg true script = some fr)
    (hsig : none ∈ fr.consumed ∨ some [] ∈ fr.consumed) :
    fr.success = false ∧ fr.connected = false ∧ fr.frame = none := by
  simp only [Tcp.receiveFrame] at hrun
  rw [if_neg (by simp)] at hrun
  by_cases hh : cfg.has_header = true
  · rw [if_pos (by simp [hh])] at hrun
    split at hrun
    · simp at hrun
    case _ consumedA hA =>
      have hfr := Option.some.inj hrun
      subst hfr
      exact ⟨rfl, rfl, rfl⟩
    case _ header_bytes rest consumedH hH =>
      split at hrun
      · simp at hrun
      case _ consumedP hP =>
        have hfr := Option.some.inj hrun
        subst hfr
        exact ⟨rfl, rfl, rfl⟩
      case _ payload rest2 consumedP hP =>
        have hfr := Option.some.inj hrun
        subst hfr
        exfalso
        have hc1 := receiveExact_ok_clean _ _ _ _ _ hH
        have hc2 := receiveExact_ok_clean _ _ _ _ _ hP
        rcases hsig with hs | hs <;>
          rcases List.mem_append.mp hs with hs2 | hs2
        · exact (hc1 _ hs2).1 rfl
        · exact (hc2 _ hs2).1 rfl
        · exact (hc1 _ hs2).2 rfl
        · exact (hc2 _ hs2).2 rfl
  · rw [if_neg (by simpa using hh)] at hrun
    split at hrun
    · simp at hrun
    case _ consumedA hA =>
      have hfr := Option.some.inj hrun
      subst hfr
      exact ⟨rfl, rfl, rfl⟩
    case _ payload rest2 consumedP hP =>
      have hfr := Option.some.inj hrun
      subst hfr
      exfalso
      have hc := receiveExact_ok_clean _ _ _ _ _ hP
      rcases hsig with hs | hs
      · exact (hc _ hs).1 rfl
      · exact (hc _ hs).2 rfl

theorem claim_C4_witness :
    ((Tcp.TcpConfig.mk 2 true 4).has_header = true
        ∧ Tcp.receiveExact 4 [some [0, 0, 0, 0], some [9, 9]]
            = Tcp.RecvOutcome.ok [0, 0, 0, 0] [some [9, 9]] [some [0, 0, 0, 0]]
        ∧ Tcp.receiveFrame ⟨2, true, 4⟩ true [some [0, 0, 0, 0], some [9, 9]]
            = some ⟨true, true, some [9, 9], 2, [some [0, 0, 0, 0], some [9, 9]]⟩)
      ∧ (⟨true, true, some [9, 9], 2, [some [0, 0, 0, 0], some [9, 9]]⟩
            : Tcp.FrameResult).requested = 2 :=
  ⟨⟨rfl, by decide, by decide⟩,
    (claim_C4 ⟨2, true, 4⟩ [some [0, 0, 0, 0], some [9, 9]] [some [9, 9]]
      [some [0, 0, 0, 0]] [0, 0, 0, 0]
      ⟨true, true, some [9, 9], 2, [some [0, 0, 0, 0], some [9, 9]]⟩
      rfl (by decide) (by decide)).1⟩

theorem claim_C5_witness :
    (Tcp.receiveFrame ⟨4, false, 0⟩ true [some [1, 2], none]
        = some ⟨false, false, none, 4, [some [1, 2], none]⟩
      ∧ (none ∈ [some [1, 2], none] ∨ some [] ∈ [some [1, 2], none]))
      ∧ ((⟨false, false, none, 4, [some [1, 2], none]⟩ : Tcp.FrameResult).success = false
        ∧ (⟨false, false, none, 4, [some [1, 2], none]⟩ : Tcp.FrameResult).connected = false
        ∧ (⟨false, false, none, 4, [some [1, 2], none]⟩ : Tcp.FrameResult).frame = none) :=
  ⟨⟨by decide, by decide⟩,
    claim_C5 ⟨4, false, 0⟩ [some [1, 2], none]
      ⟨false, false, none, 4, [some [1, 2], none]⟩ (by decide) (by decide)⟩

/-! ### C1: multiset semantics of the two PlanarBit decoders -/

theorem snd_pair {α β : Type} (a : α) (b : β) : (a, b).2 = b := rfl

theorem fst_pair {α β : Type} (a : α) (b : β) : (a, b).1 = a := rfl

theorem coe_ite_singleton {α : Type} (c : Prop) [Decidable c] (e : α) :
    ((↑(if c then [e] else ([] : List α))) : Multiset α)
      = if c then ({e} : Multiset α) else 0 := by
  split <;> rfl

theorem coe_flatMap_range {α : Type} (n : Nat) (f : Nat → List α) :
    (((List.range n).flatMap f : List α) : Multiset α)
      = ∑ i ∈ Finset.range n, ((f i : List α) : Multiset α) := by
  induction n with
  | zero => simp
  | succ n ih =>
    rw [List.range_succ, List.flatMap_append, ← Multiset.coe_add, ih,
      Finset.sum_range_succ]
    simp

theorem sum_range_add_blocks {M : Type} [AddCommMonoid M] (F : Nat → M) (m k : Nat) :
    ∑ p ∈ Finset.range (m + k), F p
      = ∑ p ∈ Finset.range m, F p + ∑ o ∈ Finset.range k, F (m + o) := by
  induction k with
  | zero => simp
  | succ k ih =>
    rw [show m + (k + 1) = (m + k) + 1 from rfl, Finset.sum_range_succ, ih,
      Finset.sum_range_succ, add_assoc]

theorem sum_range_mul_blocks {M : Type} [AddCommMonoid M] (F : Nat → M) (n k : Nat) :
    ∑ p ∈ Finset.range (n * k), F p
      = ∑ b ∈ Finset.range n, ∑ o ∈ Finset.range k, F (b * k + o) := by
  induction n with
  | zero => simp
  | succ n ih =>
    rw [Nat.succ_mul, sum_range_add_blocks, ih, Finset.sum_range_succ]

theorem coe_filter_map {α : Type} (n : Nat) (p : Nat → Bool) (g : Nat → α) :
    ((((List.range n).filter p).map g : List α) : Multiset α)
      = ∑ o ∈ Finset.range n, if p o then ({g o} : Multiset α) else 0 := by
  induction n with
  | zero => simp
  | succ n ih =>
    rw [List.range_succ, List.filter_append, List.map_append, ← Multiset.coe_add,
      ih, Finset.sum_range_succ]
    by_cases hp : p n
    · simp [hp]
    · simp [hp]

theorem coe_bit_positions_map {α : Type} (msb : Bool) (b : Nat) (g : Nat → α) :
    (((if b = 0 then [] else (Planar.bit_positions msb b).map g) : List α) : Multiset α)
      = ∑ o ∈ Finset.range 8,
          if b.testBit (if msb then 7 - o else o) then ({g o} : Multiset α) else 0 := by
  by_cases hb : b = 0
  · subst hb
    simp [Nat.zero_testBit]
  · rw [if_neg hb, Planar.bit_positions, coe_filter_map]

/-- The fast channel decoder, as a multiset, is the sum over all bit
indices it covers of the indicator of the channel bit, at the scan-order
coordinates of that bit index. -/
theorem coe_unpackChannelFast (cfg : Planar.Config) (ch : Nat → Nat) (ts : Int)
    (pol : Bool) (hw : 0 < cfg.width) (hh : 0 < cfg.height) :
    ((Planar.unpackChannelFast cfg ch ts pol : List Event) : Multiset Event)
      = ∑ p ∈ Finset.range (cfg.bytes_per_channel * 8),
          if (ch (p / 8)).testBit (if cfg.msb_first then 7 - p % 8 else p % 8)
          then ({(if cfg.row_major then
                    (⟨ts, p % cfg.width, p / cfg.width, pol⟩ : Event)
                  else ⟨ts, p / cfg.height, p % cfg.height, pol⟩)} : Multiset Event)
          else 0 := by
  rw [sum_range_mul_blocks]
  simp only [Planar.unpackChannelFast]
  rw [coe_flatMap_range]
  apply Finset.sum_congr rfl
  intro b hb
  rw [coe_bit_positions_map]
  apply Finset.sum_congr rfl
  intro o ho
  rw [Finset.mem_range] at ho
  have hd : (b * 8 + o) / 8 = b := by omega
  have hm : (b * 8 + o) % 8 = o := by omega
  rw [hd, hm]
  by_cases hrm : cfg.row_major = true
  · simp only [hrm, if_true]
    obtain ⟨e1, e2⟩ := base_shift cfg.width (b * 8) o hw
    rw [e1, e2]
  · have hrm' : cfg.row_major = false := by simpa using hrm
    simp only [hrm', Bool.false_eq_true, if_false]
    obtain ⟨e1, e2⟩ := base_shift cfg.height (b * 8) o hh
    rw [e1, e2]

/-- The per-pixel scan of one channel of the reference decoder, as a
multiset, is the sum over all bit indices of the channel of the indicator
of the channel bit, at the scan-order coordinates of that bit index. -/
theorem ref_channel_sum (cfg : Planar.Config) (ch : Nat → Nat) (ts : Int)
    (pol : Bool) (hw : 0 < cfg.width) (hh : 0 < cfg.height) :
    (∑ y ∈ Finset.range cfg.height, ∑ x ∈ Finset.range cfg.width,
        ((↑(if PlanarRef.getBit cfg ch x y then [(⟨ts, x, y, pol⟩ : Event)]
            else ([] : List Event))) : Multiset Event))
      = ∑ p ∈ Finset.range (cfg.width * cfg.height),
          if (ch (p / 8)).testBit (if cfg.msb_first then 7 - p % 8 else p % 8)
          then ({(if cfg.row_major then
                    (⟨ts, p % cfg.width, p / cfg.width, pol⟩ : Event)
                  else ⟨ts, p / cfg.height, p % cfg.height, pol⟩)} : Multiset Event)
          else 0 := by
  by_cases hrm : cfg.row_major = true
  · rw [Nat.mul_comm cfg.width cfg.height, sum_range_mul_blocks]
    apply Finset.sum_congr rfl
    intro y hy
    apply Finset.sum_congr rfl
    intro x hx
    rw [Finset.mem_range] at hx
    rw [coe_ite_singleton]
    simp only [PlanarRef.getBit, PlanarRef.getBitIndex, hrm, if_true]
    have h1 : (y * cfg.width + x) % cfg.width = x := by
      rw [Nat.mul_comm, Nat.mul_add_mod]
      exact Nat.mod_eq_of_lt hx
    have h2 : (y * cfg.width + x) / cfg.width = y := by
      rw [Nat.add_comm, Nat.mul_comm, Nat.add_mul_div_left x y hw]
      simp [Nat.div_eq_of_lt hx]
    rw [h1, h2]
  · have hrm' : cfg.row_major = false := by simpa using hrm
    rw [Finset.sum_comm, sum_range_mul_blocks]
    apply Finset.sum_congr rfl
    intro x hx
    apply Finset.sum_congr rfl
    intro y hy
    rw [Finset.mem_range] at hy
    rw [coe_ite_singleton]
    simp only [PlanarRef.getBit, PlanarRef.getBitIndex, hrm', Bool.false_eq_true,
      if_false]
    have h1 : (x * cfg.height + y) % cfg.height = y := by
      rw [Nat.mul_comm, Nat.mul_add_mod]
      exact Nat.mod_eq_of_lt hy
    have h2 : (x * cfg.height + y) / cfg.height = x := by
      rw [Nat.add_comm, Nat.mul_comm, Nat.add_mul_div_left y x hh]
      simp [Nat.div_eq_of_lt hy]
    rw [h1, h2]

/-- C1 (amended): for a PlanarBit configuration with positive resolution
whose pixel count is a multiple of 8, on any buffer of at least the
expected size the fast table-driven decode produces exactly the same events
as the straightforward per-pixel decode — as multisets, i.e. up to order —
and reports the same event count.  The two orders differ: the fast decode
emits all positive-plane events and then all negative-plane events, the
per-pixel decode interleaves the two channels pixel by pixel (see the
counterexample). -/
theorem claim_C1 (cfg : Planar.Config) (buf : List Nat) (k : Nat)
    (ev ev' : List Event) (hw : 0 < cfg.width) (hh : 0 < cfg.height)
    (hdiv : 8 ∣ cfg.width * cfg.height) (hlen : cfg.frame_size ≤ buf.length) :
    ((Planar.unpack cfg buf k ev).2).Perm ((PlanarRef.unpack cfg buf k ev').2)
      ∧ (Planar.unpack cfg buf k ev).1 = (PlanarRef.unpack cfg buf k ev').1 := by
  have hnlt : ¬ buf.length < cfg.frame_size := Nat.not_lt.mpr hlen
  have h8 : cfg.bytes_per_channel * 8 = cfg.width * cfg.height := by
    simpa [Planar.Config.bytes_per_channel, Planar.Config.pixels_per_channel]
      using Nat.div_mul_cancel hdiv
  have hms : (((Planar.unpack cfg buf k ev).2 : List Event) : Multiset Event)
      = (((PlanarRef.unpack cfg buf k ev').2 : List Event) : Multiset Event) := by
    simp only [Planar.unpack, PlanarRef.unpack]
    rw [if_neg hnlt, snd_pair, if_neg hnlt, snd_pair]
    rw [← Multiset.coe_add]
    rw [coe_unpackChannelFast cfg (Planar.posChannel cfg buf)
        ((k : Int) * cfg.frame_interval_us) true hw hh,
      coe_unpackChannelFast cfg (Planar.negChannel cfg buf)
        ((k : Int) * cfg.frame_interval_us) false hw hh]
    rw [h8]
    rw [← ref_channel_sum cfg (Planar.posChannel cfg buf)
        ((k : Int) * cfg.frame_interval_us) true hw hh,
      ← ref_channel_sum cfg (Planar.negChannel cfg buf)
        ((k : Int) * cfg.frame_interval_us) false hw hh]
    simp only [coe_flatMap_range, ← Multiset.coe_add, Finset.sum_add_distrib]
  have hperm := Multiset.coe_eq_coe.mp hms
  refine ⟨hperm, ?_⟩
  have c1 : (Planar.unpack cfg buf k ev).1
      = (Planar.unpack cfg buf k ev).2.length := by
    simp only [Planar.unpack]
    rw [if_neg hnlt]
  have c2 : (PlanarRef.unpack cfg buf k ev').1
      = (PlanarRef.unpack cfg buf k ev').2.length := by
    simp only [PlanarRef.unpack]
    rw [if_neg hnlt]
  rw [c1, c2]
  exact hperm.length_eq

/-- C1 counterexample: an 8×8 row-major LSB-first frame with a positive
event at pixel 1 and a negative event at pixel 0.  The fast decode emits
the positive-plane event first, the per-pixel decode emits the pixel-0
negative event first, so the output sequences differ — the optimized decode
does not preserve the per-pixel decode's order. -/
theorem claim_C1_counterexample :
    (Planar.unpack ⟨8, 8, false, true, true, 2000⟩
        [2, 0, 0, 0, 0, 0, 0, 0, 1, 0, 0, 0, 0, 0, 0, 0] 0 []).2
      ≠ (PlanarRef.unpack ⟨8, 8, false, true, true, 2000⟩
        [2, 0, 0, 0, 0, 0, 0, 0, 1, 0, 0, 0, 0, 0, 0, 0] 0 []).2 := by
  decide

theorem claim_C1_witness :
    (0 < 8 ∧ 0 < 8 ∧ 8 ∣ 8 * 8
        ∧ (Planar.Config.mk 8 8 false true true 2000).frame_size
            ≤ ([2, 0, 0, 0, 0, 0, 0, 0, 1, 0, 0, 0, 0, 0, 0, 0] : List Nat).length)
      ∧ ((Planar.unpack ⟨8, 8, false, true, true, 2000⟩
            [2, 0, 0, 0, 0, 0, 0, 0, 1, 0, 0, 0, 0, 0, 0, 0] 0 []).2).Perm
          ((PlanarRef.unpack ⟨8, 8, false, true, true, 2000⟩
            [2, 0, 0, 0, 0, 0, 0, 0, 1, 0, 0, 0, 0, 0, 0, 0] 0 []).2) :=
  ⟨⟨by decide, by decide, by decide, by decide⟩,
    (claim_C1 ⟨8, 8, false, true, true, 2000⟩
      [2, 0, 0, 0, 0, 0, 0, 0, 1, 0, 0, 0, 0, 0, 0, 0] 0 [] []
      (by decide) (by decide) (by decide) (by decide)).1⟩
